import Mathlib

/-!
Shallow embedding of the PrixFixe SMTP load generator
(`stress-test/load-generator/load_generator.py`) and proofs about it.

Conventions used throughout:
* Python `float` values (latencies, percentile arguments) are modelled as `ℚ`.
* Python `int` values are modelled as `ℤ` or `ℕ`; where the source subtracts
  (`size_bytes - 100`) and only compares against a non-negative length, truncated
  `ℕ` subtraction agrees with the Python comparison and is used directly.
* Python strings are modelled as Lean `String`; `x in s` (substring test) is
  modelled on the underlying character lists.
* A Python exception is modelled as a value recording whether it is an
  `asyncio.TimeoutError` together with its `str()` text.
-/

namespace LoadGenerator

/-- Substring test: models Python `pat in hay` on strings (`hay` given as a
character list). -/
def strHas (hay : List Char) (pat : String) : Bool :=
  decide (pat.data <:+: hay)

/-- Models Python `s.lower()` restricted to the ASCII texts the program works with. -/
def lowerStr (s : String) : List Char :=
  s.data.map Char.toLower

/-- Models Python `s.startswith(pre)`. -/
def pyStartsWith (s pre : String) : Bool :=
  pre.data.isPrefixOf s.data

/-- Models Python `int(x)` on a rational: truncation toward zero. -/
def pyInt (q : ℚ) : ℤ :=
  if 0 ≤ q then ⌊q⌋ else -⌊-q⌋

/-- `ErrorType` enum from the source (`timeout`, `connection_refused`,
`connection_reset`, `protocol_error`, `other`). -/
inductive ErrorType where
  | timeout
  | connection_refused
  | connection_reset
  | protocol_error
  | other
deriving DecidableEq, Repr

/-- A Python exception as seen by `SMTPLoadGenerator._classify_error`: whether it
is an instance of `asyncio.TimeoutError`, and its `str()` text. -/
structure PyError where
  isTimeoutError : Bool
  text : String
deriving DecidableEq, Repr

/-- Embeds `SMTPLoadGenerator._classify_error`: order-sensitive matching on the
lowered exception text, with the `isinstance(error, asyncio.TimeoutError)` test
first. -/
def classify_error (error : PyError) : ErrorType :=
  let error_str := lowerStr error.text
  if error.isTimeoutError then ErrorType.timeout
  else if strHas error_str "connection refused" then ErrorType.connection_refused
  else if strHas error_str "connection reset" || strHas error_str "errno 104" then
    ErrorType.connection_reset
  else if strHas error_str "500" || strHas error_str "501" ||
      strHas error_str "503" || strHas error_str "550" then
    ErrorType.protocol_error
  else ErrorType.other

/-- The `TestMetrics` dataclass.  The `error_breakdown` dict is modelled as a
total function from error categories to counts, a key that was never stored
mapping to `0` (matching `dict.get(key, 0)`).  Fields not involved in any claim
(timestamps, docker stats) are omitted. -/
structure TestMetrics where
  total_messages : ℕ := 0
  successful_messages : ℕ := 0
  failed_messages : ℕ := 0
  connection_errors : ℕ := 0
  total_bytes_sent : ℕ := 0
  response_times : List ℚ := []
  error_breakdown : ErrorType → ℕ := fun _ => 0

/-- A fresh `TestMetrics()` instance: every counter zero. -/
def TestMetrics.init : TestMetrics := {}

/-- `TestMetrics.record_error`: bump the count stored under the error's key. -/
def TestMetrics.record_error (m : TestMetrics) (error_type : ErrorType) : TestMetrics :=
  { m with error_breakdown :=
      fun k => if k = error_type then m.error_breakdown error_type + 1 else m.error_breakdown k }

/-- `TestMetrics.percentile` on a list of response times: sort ascending, take
`k = (n-1)*(p/100)`, `f = int(k)`, `c = f+1` if `f+1 < n` else `f`, and linearly
interpolate.  List indexing uses a default of `0`; for `0 ≤ p ≤ 100` the indices
are shown to be in bounds. -/
def percentileOf (times : List ℚ) (p : ℚ) : ℚ :=
  if times.isEmpty then 0
  else
    let sorted_times := times.mergeSort (fun a b => a ≤ b)
    let k : ℚ := ((sorted_times.length : ℚ) - 1) * (p / 100)
    let f : ℤ := pyInt k
    let c : ℤ := if f + 1 < (sorted_times.length : ℤ) then f + 1 else f
    if f = c then sorted_times.getD (pyInt k).toNat 0
    else
      sorted_times.getD f.toNat 0 * ((c : ℚ) - k) +
        sorted_times.getD c.toNat 0 * (k - (f : ℚ))

/-- `metrics.percentile(p)`. -/
def TestMetrics.percentile (m : TestMetrics) (p : ℚ) : ℚ :=
  percentileOf m.response_times p

/-- `metrics.min_response_time`: `min(response_times)` (or `0` when empty). -/
def TestMetrics.min_response_time (m : TestMetrics) : ℚ :=
  match m.response_times with
  | [] => 0
  | x :: xs => xs.foldl min x

/-- `metrics.max_response_time`: `max(response_times)` (or `0` when empty). -/
def TestMetrics.max_response_time (m : TestMetrics) : ℚ :=
  match m.response_times with
  | [] => 0
  | x :: xs => xs.foldl max x

/-! ### The protocol client (`SMTPLoadGenerator.send_smtp_message`)

One network read (`await asyncio.wait_for(reader.readline(), ...)`) either
returns a line (`ok`) or raises an exception (`exc`, covering both
`asyncio.TimeoutError` and connection faults).  A whole transaction's network
behaviour is the connection attempt's outcome plus the sequence of read
results; an exhausted read list behaves like EOF (`readline` returning `b""`).
-/

/-- Result of one `readline` call. -/
inductive NetResult where
  | ok (line : String)
  | exc (e : PyError)
deriving DecidableEq, Repr

/-- The network behaviour a single transaction observes: whether opening the
connection raised, and the successive `readline` results. -/
structure Session where
  connect : Option PyError
  reads : List NetResult
deriving DecidableEq, Repr

/-- Outcome of the protocol steps: `Except.error (some e)` means an exception
`e` propagated to the handlers; `Except.error none` means the code returned
`False` after an unexpected status line (no exception raised); `Except.ok`
carries the remaining reads. -/
def expectLine (reads : List NetResult) (code : String) :
    Except (Option PyError) (List NetResult) :=
  match reads with
  | [] => if pyStartsWith "" code then Except.ok [] else Except.error none
  | NetResult.exc e :: _ => Except.error (some e)
  | NetResult.ok line :: rest =>
      if pyStartsWith line code then Except.ok rest else Except.error none

/-- The `while True` loop reading EHLO responses: any line not starting with
`"250"` fails the transaction; a line starting with `"250 "` ends the loop. -/
def ehloLoop : List NetResult → Except (Option PyError) (List NetResult)
  | [] => Except.error none
  | NetResult.exc e :: _ => Except.error (some e)
  | NetResult.ok line :: rest =>
      if !pyStartsWith line "250" then Except.error none
      else if pyStartsWith line "250 " then Except.ok rest
      else ehloLoop rest

/-- The read after `QUIT`: the line's content is discarded, but an exception
still propagates. -/
def quitRead (reads : List NetResult) : Except (Option PyError) Unit :=
  match reads with
  | NetResult.exc e :: _ => Except.error (some e)
  | _ => Except.ok ()

/-- The protocol steps of `send_smtp_message` through the server's acceptance
of the message body: greeting `220`, the EHLO loop, `250` for MAIL FROM, `250`
for RCPT TO, `354` for DATA, and `250` after the end-of-data marker.  Returns
the reads remaining for the QUIT exchange. -/
def preQuitSteps (reads : List NetResult) : Except (Option PyError) (List NetResult) := do
  let r1 ← expectLine reads "220"
  let r2 ← ehloLoop r1
  let r3 ← expectLine r2 "250"
  let r4 ← expectLine r3 "250"
  let r5 ← expectLine r4 "354"
  expectLine r5 "250"

/-- The full sequence of protocol steps of `send_smtp_message` after a
successful connect: the pre-QUIT steps followed by the discarded QUIT
response. -/
def sessionSteps (reads : List NetResult) : Except (Option PyError) Unit :=
  match preQuitSteps reads with
  | Except.error o => Except.error o
  | Except.ok r6 => quitRead r6

/-- Overall outcome of one transaction attempt over `sess`. -/
def sessionOutcome (sess : Session) : Except (Option PyError) Unit :=
  match sess.connect with
  | some e => Except.error (some e)
  | none => sessionSteps sess.reads

/-- The two `except` clauses of `send_smtp_message`: both bump
`connection_errors`; the first records `ErrorType.TIMEOUT` for an
`asyncio.TimeoutError`, the second records `_classify_error(e)`. -/
def recordException (m : TestMetrics) (e : PyError) : TestMetrics :=
  let m1 := { m with connection_errors := m.connection_errors + 1 }
  if e.isTimeoutError then m1.record_error ErrorType.timeout
  else m1.record_error (classify_error e)

/-! ### `SMTPLoadGenerator.generate_message_body` -/

/-- The fixed header and initial filler lines of the generated message. -/
def headerMessage : String :=
  "From: loadgen@test.local\r\n" ++
  "To: test@example.com\r\n" ++
  "Subject: Load Test Message\r\n" ++
  "\r\n" ++
  "This is a test message from the load generator.\r\n" ++
  "It contains multiple lines of text.\r\n" ++
  "Each line is kept short for compatibility.\r\n"

/-- One numbered filler line appended by the padding loop. -/
def fillerLine (line_num : ℕ) : String :=
  "Line " ++ Nat.repr line_num ++ " of test message body content.\r\n"

/-- The padding loop: `while len(message) < size_bytes - 100: line_num += 1;
message += fillerLine(line_num)`.  (`size_bytes - 100` is truncated `ℕ`
subtraction; since a Python length is never negative, the loop condition
agrees with the Python one for all `size_bytes`.) -/
def padLoop (size_bytes : ℕ) (line_num : ℕ) (message : String) : String :=
  if h : message.length < size_bytes - 100 then
    padLoop size_bytes (line_num + 1) (message ++ fillerLine (line_num + 1))
  else message
termination_by size_bytes - message.length
decreasing_by
  have hlen : (message ++ fillerLine (line_num + 1)).length = message.length + (fillerLine (line_num + 1)).length := by
    simp [String.length_append]
  have hpos : 0 < (fillerLine (line_num + 1)).length := by
    simp only [fillerLine, String.length_append]
    have : 0 < ("Line " : String).length := by decide
    omega
  have h1 : message.length < size_bytes := lt_of_lt_of_le h (Nat.sub_le _ _)
  have h2 : message.length < (message ++ fillerLine (line_num + 1)).length := by omega
  exact Nat.sub_lt_sub_left h1 h2

/-- `generate_message_body(size_bytes)`. -/
def generate_message_body (size_bytes : ℕ) : String :=
  padLoop size_bytes 0 headerMessage

/-- `send_smtp_message(server, message_size)` as a function of the observed
network behaviour, the message size, and the elapsed wall-clock time of the
attempt.  Returns the Python `bool` result together with the updated metrics:
on success it bumps `successful_messages`, adds the generated body's length to
`total_bytes_sent` and appends the response time; on an exception it runs the
`except` clause; on a status-line rejection it returns `False` leaving the
metrics untouched. -/
def send_smtp_message (sess : Session) (message_size : ℕ) (elapsed : ℚ)
    (m : TestMetrics) : Bool × TestMetrics :=
  match sessionOutcome sess with
  | Except.error (some e) => (false, recordException m e)
  | Except.error none => (false, m)
  | Except.ok () =>
      (true,
        { m with
          successful_messages := m.successful_messages + 1,
          total_bytes_sent := m.total_bytes_sent + (generate_message_body message_size).length,
          response_times := m.response_times ++ [elapsed] })

/-! ### `SMTPLoadGenerator.run_worker` and the burst partition -/

/-- One message attempt of `run_worker`: under the lock `total_messages += 1`,
run `send_smtp_message`, and on failure `failed_messages += 1`. -/
def workerStep (m : TestMetrics) (sess : Session) (message_size : ℕ) (elapsed : ℚ) :
    TestMetrics :=
  let m1 := { m with total_messages := m.total_messages + 1 }
  let r := send_smtp_message sess message_size elapsed m1
  if r.1 then r.2 else { r.2 with failed_messages := r.2.failed_messages + 1 }

/-- `run_worker(worker_id, num_messages, message_size)`: the loop
`for i in range(num_messages)`, with `i` starting at `start` (the source starts
at `0`; the start index is a parameter so that theorems can speak about every
iteration).  Besides the metrics it returns, in order, the index
`i % len(servers)` of the server each message was sent to.  `attempts` holds
the network behaviour and elapsed time of each attempt in iteration order. -/
def run_worker (server_count message_size : ℕ) :
    List (Session × ℚ) → ℕ → TestMetrics → TestMetrics × List ℕ
  | [], _, m => (m, [])
  | (sess, t) :: rest, i, m =>
      let srv := i % server_count
      let m' := workerStep m sess message_size t
      let out := run_worker server_count message_size rest (i + 1) m'
      (out.1, srv :: out.2)

/-- The burst-mode partition in `run_burst_test`:
`messages_per_worker = total // workers`, `remainder = total % workers`, and
worker `i` gets one extra message when `i < remainder`. -/
def burstBatchSizes (total_messages concurrent_workers : ℕ) : List ℕ :=
  let messages_per_worker := total_messages / concurrent_workers
  let remainder := total_messages % concurrent_workers
  (List.range concurrent_workers).map
    (fun i => messages_per_worker + if i < remainder then 1 else 0)

/-- A fully drained burst run: every worker's batch has completed and been
recorded.  Because every recording operation is a counter increment or append
performed under the metrics lock, the final metrics of any interleaving equal
those of processing the attempts batch by batch. -/
def runBatches (server_count message_size : ℕ)
    (batches : List (List (Session × ℚ))) (m : TestMetrics) : TestMetrics :=
  batches.foldl (fun acc b => (run_worker server_count message_size b 0 acc).1) m

/-! ### Spec-side definitions and proof-support definitions -/

/-- The spec's wording of the percentile computation, for comparison with the
source-derived `percentileOf`: with the list sorted ascending into a working
copy of length `n`, `k = (n-1)*p/100`, `f = floor k`, `c = min (f+1) (n-1)`;
the result is `sorted[f]` when `f = c` and the linear interpolation
`sorted[f]*(c-k) + sorted[c]*(k-f)` otherwise. -/
def percentileSpec (times : List ℚ) (p : ℚ) : ℚ :=
  if times.isEmpty then 0
  else
    let sorted_times := times.mergeSort (fun a b => a ≤ b)
    let n := sorted_times.length
    let k : ℚ := ((n : ℚ) - 1) * (p / 100)
    let f : ℤ := ⌊k⌋
    let c : ℤ := min (f + 1) ((n : ℤ) - 1)
    if f = c then sorted_times.getD f.toNat 0
    else
      sorted_times.getD f.toNat 0 * ((c : ℚ) - k) +
        sorted_times.getD c.toNat 0 * (k - (f : ℚ))

/-- The sum of all counts stored in the `error_breakdown` mapping (keys never
stored count `0`). -/
def sumErrorBreakdown (f : ErrorType → ℕ) : ℕ :=
  f ErrorType.timeout + f ErrorType.connection_refused + f ErrorType.connection_reset +
    f ErrorType.protocol_error + f ErrorType.other

/-- The network behaviour of a transaction whose RCPT TO command is answered
with `550 rejected` (greeting, one-line EHLO response and MAIL FROM all
accepted). -/
def rcpt550Session : Session :=
  { connect := none,
    reads := [NetResult.ok "220 server ready",
              NetResult.ok "250 ok",
              NetResult.ok "250 ok",
              NetResult.ok "550 rejected"] }

/-- The network behaviour of a transaction that succeeds through the server's
acceptance of the message body but whose QUIT-response read times out. -/
def quitTimeoutSession : Session :=
  { connect := none,
    reads := [NetResult.ok "220 server ready",
              NetResult.ok "250 ok",
              NetResult.ok "250 ok",
              NetResult.ok "250 ok",
              NetResult.ok "354 go ahead",
              NetResult.ok "250 accepted",
              NetResult.exc { isTimeoutError := true, text := "" }] }

/-- Number of decimal digits of `n` (the length of Python's `str(n)`,
with `str(0) = "0"`). -/
def digitsLen (n : ℕ) : ℕ :=
  if n < 10 then 1 else digitsLen (n / 10) + 1
termination_by n
decreasing_by
  have h10 : 10 ≤ n := Nat.le_of_not_lt (by assumption)
  exact Nat.div_lt_self (by omega) (by omega)

/-- `digitSum m` is the total number of decimal digits of `1, ..., m`. -/
def digitSum : ℕ → ℕ
  | 0 => 0
  | m + 1 => digitSum m + digitsLen (m + 1)

/-- The message produced by the padding loop after appending filler lines
`1, ..., m` to the header. -/
def msgUpTo : ℕ → String
  | 0 => headerMessage
  | m + 1 => msgUpTo m ++ fillerLine (m + 1)

/-- Closed form for `digitSum (10^k - 1)`: numbers of each digit-length block
contribute `(10^(k+1) - 10^k) * (k+1)` digits. -/
def decadeDigitTotal : ℕ → ℕ
  | 0 => 0
  | k + 1 => decadeDigitTotal k + (10 ^ (k + 1) - 10 ^ k) * (k + 1)

/-! ## Theorems -/

/-- Sum of the per-worker batch sizes, as a function of the worker count `n`,
the base size `q` and the remainder bound `r`. -/
theorem sum_range_map_add_ite (n q r : ℕ) :
    ((List.range n).map (fun i => q + if i < r then 1 else 0)).sum = n * q + min n r := by
  induction n with
  | zero => simp
  | succ n ih =>
      rw [List.range_succ, List.map_append, List.sum_append]
      simp only [List.map_cons, List.map_nil, List.sum_cons, List.sum_nil, ih]
      rcases Nat.lt_or_ge n r with h | h
      · rw [if_pos h, Nat.min_eq_left (by omega), Nat.min_eq_left (by omega), Nat.succ_mul]
        omega
      · rw [if_neg (by omega), Nat.min_eq_right (by omega), Nat.min_eq_right (by omega),
          Nat.succ_mul]
        omega

/-- C5: burst mode partitions `totalMessages` into `workerCount` batches with
base `totalMessages / workerCount` and remainder `r`; workers `0..r-1` get one
extra message, the batch sizes sum to `totalMessages`, and
`totalMessages = 23, workerCount = 5` gives `[5, 5, 5, 4, 4]`. -/
theorem c5_burst_partition (total_messages concurrent_workers : ℕ)
    (hw : 1 ≤ concurrent_workers) :
    (burstBatchSizes total_messages concurrent_workers).length = concurrent_workers ∧
    (∀ i, i < concurrent_workers →
      (burstBatchSizes total_messages concurrent_workers).getD i 0 =
        total_messages / concurrent_workers +
          if i < total_messages % concurrent_workers then 1 else 0) ∧
    (burstBatchSizes total_messages concurrent_workers).sum = total_messages ∧
    burstBatchSizes 23 5 = [5, 5, 5, 4, 4] := by
  refine ⟨by simp [burstBatchSizes], ?_, ?_, by decide⟩
  · intro i hi
    simp [burstBatchSizes, List.getD_eq_getElem?_getD, List.getElem?_map,
      List.getElem?_range, hi]
  · show ((List.range concurrent_workers).map _).sum = _
    rw [sum_range_map_add_ite]
    have hmod : total_messages % concurrent_workers < concurrent_workers :=
      Nat.mod_lt _ (by omega)
    rw [min_eq_right (Nat.le_of_lt hmod), Nat.div_add_mod]

/-- C5 witness: the partition facts hold at `totalMessages = 23`,
`workerCount = 5`. -/
theorem c5_burst_partition_witness :
    1 ≤ 5 ∧ (burstBatchSizes 23 5).sum = 23 :=
  ⟨by decide, (c5_burst_partition 23 5 (by decide)).2.2.1⟩

/-- The trace of server indices chosen by `run_worker` when its loop counter
starts at `start`: message `j` of the remaining batch goes to server
`(start + j) % server_count`. -/
theorem run_worker_servers (server_count message_size : ℕ)
    (attempts : List (Session × ℚ)) :
    ∀ (start : ℕ) (m : TestMetrics),
      (run_worker server_count message_size attempts start m).2 =
        (List.range attempts.length).map (fun j => (start + j) % server_count) := by
  induction attempts with
  | nil => intro start m; simp [run_worker]
  | cons a rest ih =>
      intro start m
      obtain ⟨sess, t⟩ := a
      simp only [run_worker, List.length_cons]
      rw [List.range_succ_eq_map, List.map_cons, List.map_map, ih]
      refine congrArg₂ _ (by simp) (List.map_congr_left ?_)
      intro j _
      simp only [Function.comp_apply, Nat.succ_eq_add_one]
      have harg : start + (j + 1) = start + 1 + j := by omega
      rw [harg]

/-- C8: in burst mode each worker's server round-robin is local to that
worker: the `i`-th message of a worker (local index `i` starting at `0`,
independent of the shared metrics state and of other workers) goes to the
server at position `i % serverCount`. -/
theorem c8_worker_round_robin (server_count message_size : ℕ)
    (attempts : List (Session × ℚ)) (m : TestMetrics) (i : ℕ)
    (hi : i < attempts.length) :
    (run_worker server_count message_size attempts 0 m).2 =
      (List.range attempts.length).map (fun j => j % server_count) ∧
    (run_worker server_count message_size attempts 0 m).2.getD i 0 =
      i % server_count := by
  have h := run_worker_servers server_count message_size attempts 0 m
  simp only [Nat.zero_add] at h
  refine ⟨h, ?_⟩
  rw [h]
  simp [List.getD_eq_getElem?_getD, List.getElem?_map, List.getElem?_range, hi]

/-- C8 witness: a concrete three-message batch against two servers is routed
`[0, 1, 0]`. -/
theorem c8_worker_round_robin_witness :
    (1 : ℕ) < 3 ∧
      (run_worker 2 0 [(rcpt550Session, 0), (rcpt550Session, 0), (rcpt550Session, 0)]
          0 TestMetrics.init).2.getD 1 0 = 1 % 2 :=
  ⟨by decide,
    (c8_worker_round_robin 2 0
      [(rcpt550Session, 0), (rcpt550Session, 0), (rcpt550Session, 0)]
      TestMetrics.init 1 (by decide)).2⟩

/-- C6: the error classifier tests, in order: `asyncio.TimeoutError`, then
"connection refused", then "connection reset"/"errno 104", then the SMTP codes
500/501/503/550, then falls back to `Other`; first match wins.  A cause with
both "connection refused" and "550" in its text is `ConnectionRefused`; a
cause with just "550" is `ProtocolError`. -/
theorem c6_classify_order (e : PyError) :
    (e.isTimeoutError = true → classify_error e = ErrorType.timeout) ∧
    (e.isTimeoutError = false →
      strHas (lowerStr e.text) "connection refused" = true →
      classify_error e = ErrorType.connection_refused) ∧
    (e.isTimeoutError = false →
      strHas (lowerStr e.text) "connection refused" = false →
      (strHas (lowerStr e.text) "connection reset" || strHas (lowerStr e.text) "errno 104") = true →
      classify_error e = ErrorType.connection_reset) ∧
    (e.isTimeoutError = false →
      strHas (lowerStr e.text) "connection refused" = false →
      (strHas (lowerStr e.text) "connection reset" || strHas (lowerStr e.text) "errno 104") = false →
      (strHas (lowerStr e.text) "500" || strHas (lowerStr e.text) "501" ||
        strHas (lowerStr e.text) "503" || strHas (lowerStr e.text) "550") = true →
      classify_error e = ErrorType.protocol_error) ∧
    (e.isTimeoutError = false →
      strHas (lowerStr e.text) "connection refused" = false →
      (strHas (lowerStr e.text) "connection reset" || strHas (lowerStr e.text) "errno 104") = false →
      (strHas (lowerStr e.text) "500" || strHas (lowerStr e.text) "501" ||
        strHas (lowerStr e.text) "503" || strHas (lowerStr e.text) "550") = false →
      classify_error e = ErrorType.other) ∧
    classify_error { isTimeoutError := false, text := "Connection refused while sending 550" } =
      ErrorType.connection_refused ∧
    classify_error { isTimeoutError := false, text := "550" } = ErrorType.protocol_error := by
  refine ⟨?_, ?_, ?_, ?_, ?_, by decide, by decide⟩ <;>
    · intros
      simp_all [classify_error]

/-- C6 witness: a cause matching none of the patterns is classified `Other`. -/
theorem c6_classify_order_witness :
    classify_error { isTimeoutError := false, text := "boom" } = ErrorType.other :=
  (c6_classify_order { isTimeoutError := false, text := "boom" }).2.2.2.2.1
    (by decide) (by decide) (by decide) (by decide)

/-- The two `except` clauses coincide with classifying the exception: an
`asyncio.TimeoutError` is classified `TIMEOUT` by `_classify_error` as well. -/
theorem recordException_eq (m : TestMetrics) (e : PyError) :
    recordException m e =
      TestMetrics.record_error { m with connection_errors := m.connection_errors + 1 }
        (classify_error e) := by
  unfold recordException
  by_cases h : e.isTimeoutError = true
  · simp [h, classify_error]
  · simp [h]

/-- `record_error` touches only the `error_breakdown` field: it bumps the
recorded category's count by one and leaves every other category unchanged,
adding one to the total stored count. -/
theorem record_error_breakdown (m : TestMetrics) (c : ErrorType) :
    (m.record_error c).error_breakdown c = m.error_breakdown c + 1 ∧
    (∀ c', c' ≠ c → (m.record_error c).error_breakdown c' = m.error_breakdown c') ∧
    sumErrorBreakdown (m.record_error c).error_breakdown =
      sumErrorBreakdown m.error_breakdown + 1 := by
  refine ⟨by simp [TestMetrics.record_error], ?_, ?_⟩
  · intro c' hc'
    simp [TestMetrics.record_error, hc']
  · cases c <;> simp [TestMetrics.record_error, sumErrorBreakdown] <;> omega

/-- How one `send_smtp_message` call moves the shared counters: it never
touches `total_messages` or `failed_messages`; it bumps
`successful_messages` exactly when it returns `True`; it bumps
`connection_errors` exactly when an exception was raised. -/
theorem send_smtp_message_counters (sess : Session) (ms : ℕ) (t : ℚ) (m : TestMetrics) :
    (send_smtp_message sess ms t m).2.total_messages = m.total_messages ∧
    (send_smtp_message sess ms t m).2.failed_messages = m.failed_messages ∧
    ((send_smtp_message sess ms t m).1 = true →
      (send_smtp_message sess ms t m).2.successful_messages = m.successful_messages + 1) ∧
    ((send_smtp_message sess ms t m).1 = false →
      (send_smtp_message sess ms t m).2.successful_messages = m.successful_messages) := by
  unfold send_smtp_message
  cases h : sessionOutcome sess with
  | ok u => cases u; simp
  | error o =>
      cases o with
      | none => simp
      | some e => simp [recordException_eq, TestMetrics.record_error]

/-- `send_smtp_message` preserves the "connection errors equal the summed
error breakdown" invariant: the success and rejection paths touch neither
side, and the exception path bumps both by one. -/
theorem send_smtp_message_error_inv (sess : Session) (ms : ℕ) (t : ℚ) (m : TestMetrics)
    (h : m.connection_errors = sumErrorBreakdown m.error_breakdown) :
    (send_smtp_message sess ms t m).2.connection_errors =
      sumErrorBreakdown (send_smtp_message sess ms t m).2.error_breakdown := by
  unfold send_smtp_message
  cases ho : sessionOutcome sess with
  | ok u => cases u; simpa using h
  | error o =>
      cases o with
      | none => simpa using h
      | some e =>
          simp only [recordException_eq]
          have hb := (record_error_breakdown
            { m with connection_errors := m.connection_errors + 1 } (classify_error e)).2.2
          simp only [TestMetrics.record_error] at hb ⊢
          omega

/-- One worker-loop iteration: `total_messages` goes up by exactly one, and
exactly one of `successful_messages` / `failed_messages` goes up by exactly
one (the former when `send_smtp_message` returned `True`, the latter when it
returned `False`). -/
theorem workerStep_counters (m : TestMetrics) (sess : Session) (ms : ℕ) (t : ℚ) :
    (workerStep m sess ms t).total_messages = m.total_messages + 1 ∧
    (workerStep m sess ms t).successful_messages + (workerStep m sess ms t).failed_messages =
      m.successful_messages + m.failed_messages + 1 ∧
    ((send_smtp_message sess ms t m).1 = true →
      (workerStep m sess ms t).successful_messages = m.successful_messages + 1 ∧
      (workerStep m sess ms t).failed_messages = m.failed_messages) ∧
    ((send_smtp_message sess ms t m).1 = false →
      (workerStep m sess ms t).successful_messages = m.successful_messages ∧
      (workerStep m sess ms t).failed_messages = m.failed_messages + 1) := by
  have hsame : (send_smtp_message sess ms t
      { m with total_messages := m.total_messages + 1 }).1 =
      (send_smtp_message sess ms t m).1 := by
    unfold send_smtp_message
    cases sessionOutcome sess with
    | ok u => cases u; rfl
    | error o => cases o <;> rfl
  obtain ⟨h1, h2, h3, h4⟩ := send_smtp_message_counters sess ms t
    { m with total_messages := m.total_messages + 1 }
  dsimp only at h1 h2 h3 h4
  unfold workerStep
  cases hr : (send_smtp_message sess ms t { m with total_messages := m.total_messages + 1 }).1 with
  | false =>
      have h4' := h4 hr
      have hm : (send_smtp_message sess ms t m).1 = false := by rw [← hsame, hr]
      simp only [hr, Bool.false_eq_true, if_false, hm]
      refine ⟨by simpa using h1, by omega, ?_, fun _ => ⟨h4', by simp [h2]⟩⟩
      intro hx
      simp [hm] at hx
  | true =>
      have h3' := h3 hr
      have hm : (send_smtp_message sess ms t m).1 = true := by rw [← hsame, hr]
      simp only [hr, if_true, hm]
      refine ⟨by simpa using h1, by omega, fun _ => ⟨h3', by simpa using h2⟩, ?_⟩
      intro hx
      simp [hm] at hx

/-- Counter bookkeeping of a whole worker batch: `total_messages` grows by the
batch length, and `successful_messages + failed_messages` grows by the batch
length as well. -/
theorem run_worker_counts (sc ms : ℕ) (attempts : List (Session × ℚ)) :
    ∀ (start : ℕ) (m : TestMetrics),
      (run_worker sc ms attempts start m).1.total_messages =
        m.total_messages + attempts.length ∧
      (run_worker sc ms attempts start m).1.successful_messages +
          (run_worker sc ms attempts start m).1.failed_messages =
        m.successful_messages + m.failed_messages + attempts.length := by
  induction attempts with
  | nil => intro start m; simp [run_worker]
  | cons a rest ih =>
      intro start m
      obtain ⟨sess, t⟩ := a
      obtain ⟨w1, w2, _, _⟩ := workerStep_counters m sess ms t
      obtain ⟨i1, i2⟩ := ih (start + 1) (workerStep m sess ms t)
      simp only [run_worker, List.length_cons]
      omega

/-- `workerStep` preserves the invariant
`connection_errors = sumErrorBreakdown error_breakdown`. -/
theorem workerStep_error_inv (m : TestMetrics) (sess : Session) (ms : ℕ) (t : ℚ)
    (h : m.connection_errors = sumErrorBreakdown m.error_breakdown) :
    (workerStep m sess ms t).connection_errors =
      sumErrorBreakdown (workerStep m sess ms t).error_breakdown := by
  unfold workerStep
  have hsend := send_smtp_message_error_inv sess ms t
    { m with total_messages := m.total_messages + 1 } (by simpa using h)
  cases hr : (send_smtp_message sess ms t { m with total_messages := m.total_messages + 1 }).1 <;>
    simp only [hr, Bool.false_eq_true, if_false, if_true] <;> simpa using hsend

/-- A whole worker batch preserves the invariant
`connection_errors = sumErrorBreakdown error_breakdown`. -/
theorem run_worker_error_inv (sc ms : ℕ) (attempts : List (Session × ℚ)) :
    ∀ (start : ℕ) (m : TestMetrics),
      m.connection_errors = sumErrorBreakdown m.error_breakdown →
      (run_worker sc ms attempts start m).1.connection_errors =
        sumErrorBreakdown (run_worker sc ms attempts start m).1.error_breakdown := by
  induction attempts with
  | nil => intro start m h; simpa [run_worker] using h
  | cons a rest ih =>
      intro start m h
      obtain ⟨sess, t⟩ := a
      simp only [run_worker]
      exact ih (start + 1) _ (workerStep_error_inv m sess ms t h)

/-- C2: for a drained run (all batches fully processed and recorded),
`total == succeeded + failed` holds on the final metrics whenever it held
initially (in particular from fresh metrics); moreover each attempt bumps
`total_messages` exactly once and exactly one of `successful_messages` /
`failed_messages` exactly once. -/
theorem c2_drained_total_eq (sc ms : ℕ) (batches : List (List (Session × ℚ)))
    (m : TestMetrics)
    (h : m.total_messages = m.successful_messages + m.failed_messages) :
    (runBatches sc ms batches m).total_messages =
      (runBatches sc ms batches m).successful_messages +
        (runBatches sc ms batches m).failed_messages ∧
    (∀ (m' : TestMetrics) (sess : Session) (t : ℚ),
      (workerStep m' sess ms t).total_messages = m'.total_messages + 1 ∧
      (workerStep m' sess ms t).successful_messages +
          (workerStep m' sess ms t).failed_messages =
        m'.successful_messages + m'.failed_messages + 1) := by
  refine ⟨?_, fun m' sess t => ⟨(workerStep_counters m' sess ms t).1,
    (workerStep_counters m' sess ms t).2.1⟩⟩
  induction batches generalizing m with
  | nil => simpa [runBatches] using h
  | cons b rest ih =>
      have hb := run_worker_counts sc ms b 0 m
      exact ih (run_worker sc ms b 0 m).1 (by omega)

/-- C2 witness: a one-batch, one-message drained run starting from fresh
metrics satisfies the counter equality. -/
theorem c2_drained_total_eq_witness :
    TestMetrics.init.total_messages =
      TestMetrics.init.successful_messages + TestMetrics.init.failed_messages ∧
    (runBatches 1 0 [[(rcpt550Session, 0)]] TestMetrics.init).total_messages =
      (runBatches 1 0 [[(rcpt550Session, 0)]] TestMetrics.init).successful_messages +
        (runBatches 1 0 [[(rcpt550Session, 0)]] TestMetrics.init).failed_messages :=
  ⟨rfl, (c2_drained_total_eq 1 0 [[(rcpt550Session, 0)]] TestMetrics.init rfl).1⟩

/-- C9: at every point of a run (after any number of completed recording
steps) `connection_errors` equals the sum of all counts in `error_breakdown`:
both exception paths bump `connection_errors` and exactly one
`error_breakdown` entry by one each, and a protocol-level rejection that
returns failure without raising modifies neither. -/
theorem c9_connection_errors_eq_sum (sc ms : ℕ) (batches : List (List (Session × ℚ)))
    (m : TestMetrics)
    (h : m.connection_errors = sumErrorBreakdown m.error_breakdown) :
    (runBatches sc ms batches m).connection_errors =
      sumErrorBreakdown (runBatches sc ms batches m).error_breakdown ∧
    (∀ (m' : TestMetrics) (sess : Session) (t : ℚ),
      m'.connection_errors = sumErrorBreakdown m'.error_breakdown →
      (workerStep m' sess ms t).connection_errors =
        sumErrorBreakdown (workerStep m' sess ms t).error_breakdown) ∧
    (∀ (m' : TestMetrics) (e : PyError),
      (recordException m' e).connection_errors = m'.connection_errors + 1 ∧
      (recordException m' e).error_breakdown (classify_error e) =
        m'.error_breakdown (classify_error e) + 1 ∧
      (∀ c, c ≠ classify_error e →
        (recordException m' e).error_breakdown c = m'.error_breakdown c) ∧
      sumErrorBreakdown (recordException m' e).error_breakdown =
        sumErrorBreakdown m'.error_breakdown + 1) ∧
    (∀ (sess : Session) (t : ℚ) (m' : TestMetrics),
      sessionOutcome sess = Except.error none →
      send_smtp_message sess ms t m' = (false, m')) := by
  refine ⟨?_, fun m' sess t hm => workerStep_error_inv m' sess ms t hm, ?_, ?_⟩
  · induction batches generalizing m with
    | nil => simpa [runBatches] using h
    | cons b rest ih =>
        exact ih (run_worker sc ms b 0 m).1 (run_worker_error_inv sc ms b 0 m h)
  · intro m' e
    have hb := record_error_breakdown
      { m' with connection_errors := m'.connection_errors + 1 } (classify_error e)
    rw [recordException_eq]
    refine ⟨by simp [TestMetrics.record_error], ?_, ?_, ?_⟩
    · simpa using hb.1
    · intro c hc
      simpa using hb.2.1 c hc
    · have := hb.2.2
      simpa using this
  · intro sess t m' hout
    unfold send_smtp_message
    rw [hout]

/-- C9 witness: the invariant holds for a drained one-message run from fresh
metrics. -/
theorem c9_connection_errors_eq_sum_witness :
    TestMetrics.init.connection_errors =
      sumErrorBreakdown TestMetrics.init.error_breakdown ∧
    (runBatches 1 0 [[(rcpt550Session, 0)]] TestMetrics.init).connection_errors =
      sumErrorBreakdown (runBatches 1 0 [[(rcpt550Session, 0)]] TestMetrics.init).error_breakdown :=
  ⟨rfl, (c9_connection_errors_eq_sum 1 0 [[(rcpt550Session, 0)]] TestMetrics.init rfl).1⟩

/-- C1 counterexample: in a burst run of 10 messages in which the server
replies "550 rejected" to every RCPT TO, the code returns `False` from
`send_smtp_message` without raising, so no `except` clause runs:
`succeeded = 0` and `failed = 10` as the claim states, but
`errorCounts[ProtocolError]` is `0`, not `10` (and `connectionErrors` is `0`).
-/
theorem c1_counterexample :
    (runBatches 1 10240 [List.replicate 10 (rcpt550Session, 0)] TestMetrics.init).successful_messages = 0 ∧
    (runBatches 1 10240 [List.replicate 10 (rcpt550Session, 0)] TestMetrics.init).failed_messages = 10 ∧
    (runBatches 1 10240 [List.replicate 10 (rcpt550Session, 0)] TestMetrics.init).error_breakdown
        ErrorType.protocol_error = 0 ∧
    (runBatches 1 10240 [List.replicate 10 (rcpt550Session, 0)] TestMetrics.init).error_breakdown
        ErrorType.protocol_error ≠ 10 ∧
    (runBatches 1 10240 [List.replicate 10 (rcpt550Session, 0)] TestMetrics.init).connection_errors = 0 := by
  refine ⟨?_, ?_, ?_, ?_, ?_⟩ <;> decide

/-- C1 (amended): only a transaction that fails by a *raised exception* bumps
`failed`, `connectionErrors` and `errorCounts[category]` by one each (the
category being `_classify_error` of the cause); a protocol rejection that
returns `False` without raising bumps only `failed`.  Hence the 550-RCPT burst
run of 10 messages yields `succeeded = 0`, `failed = 10`,
`connectionErrors = 0` and an empty error breakdown. -/
theorem c1_amended (ms : ℕ) (t : ℚ) (sess : Session) (m : TestMetrics) (e : PyError)
    (hout : sessionOutcome sess = Except.error (some e)) :
    ((workerStep m sess ms t).total_messages = m.total_messages + 1 ∧
      (workerStep m sess ms t).failed_messages = m.failed_messages + 1 ∧
      (workerStep m sess ms t).successful_messages = m.successful_messages ∧
      (workerStep m sess ms t).connection_errors = m.connection_errors + 1 ∧
      (workerStep m sess ms t).error_breakdown (classify_error e) =
        m.error_breakdown (classify_error e) + 1 ∧
      (∀ c, c ≠ classify_error e →
        (workerStep m sess ms t).error_breakdown c = m.error_breakdown c)) ∧
    ((runBatches 1 10240 [List.replicate 10 (rcpt550Session, 0)] TestMetrics.init).successful_messages = 0 ∧
      (runBatches 1 10240 [List.replicate 10 (rcpt550Session, 0)] TestMetrics.init).failed_messages = 10 ∧
      (runBatches 1 10240 [List.replicate 10 (rcpt550Session, 0)] TestMetrics.init).connection_errors = 0 ∧
      ∀ c, (runBatches 1 10240 [List.replicate 10 (rcpt550Session, 0)] TestMetrics.init).error_breakdown c = 0) := by
  constructor
  · have hstep : workerStep m sess ms t =
        { recordException { m with total_messages := m.total_messages + 1 } e with
          failed_messages :=
            (recordException { m with total_messages := m.total_messages + 1 } e).failed_messages + 1 } := by
      unfold workerStep send_smtp_message
      rw [hout]
      rfl
    rw [hstep, recordException_eq]
    have hb := record_error_breakdown
      { m with total_messages := m.total_messages + 1,
               connection_errors := m.connection_errors + 1 } (classify_error e)
    refine ⟨by simp [TestMetrics.record_error], by simp [TestMetrics.record_error],
      by simp [TestMetrics.record_error], by simp [TestMetrics.record_error], ?_, ?_⟩
    · simpa [TestMetrics.record_error] using hb.1
    · intro c hc
      simpa [TestMetrics.record_error] using hb.2.1 c hc
  · refine ⟨by decide, by decide, by decide, ?_⟩
    intro c
    cases c <;> decide

/-- C1 witness: a session whose connection attempt raises a non-timeout
exception with text "boom" is recorded through the exception path. -/
theorem c1_amended_witness :
    sessionOutcome { connect := some { isTimeoutError := false, text := "boom" }, reads := [] } =
      Except.error (some { isTimeoutError := false, text := "boom" }) ∧
    (workerStep TestMetrics.init
        { connect := some { isTimeoutError := false, text := "boom" }, reads := [] }
        0 0).failed_messages = TestMetrics.init.failed_messages + 1 :=
  ⟨rfl, (c1_amended 0 0
      { connect := some { isTimeoutError := false, text := "boom" }, reads := [] }
      TestMetrics.init { isTimeoutError := false, text := "boom" } rfl).1.2.1⟩

/-- C3 counterexample: a transaction that succeeds through the server's
acceptance of the message body (250 after end-of-data) but whose QUIT-response
read raises `asyncio.TimeoutError` is *not* recorded as a success: the call
returns `False`, no latency is appended, the exception path records a
connection error, and the worker counts the attempt as failed. -/
theorem c3_counterexample :
    (send_smtp_message quitTimeoutSession 10240 1 TestMetrics.init).1 = false ∧
    (send_smtp_message quitTimeoutSession 10240 1 TestMetrics.init).2.successful_messages = 0 ∧
    (send_smtp_message quitTimeoutSession 10240 1 TestMetrics.init).2.response_times = [] ∧
    (send_smtp_message quitTimeoutSession 10240 1 TestMetrics.init).2.connection_errors = 1 ∧
    (send_smtp_message quitTimeoutSession 10240 1 TestMetrics.init).2.error_breakdown
        ErrorType.timeout = 1 ∧
    (workerStep TestMetrics.init quitTimeoutSession 10240 1).failed_messages = 1 := by
  refine ⟨?_, ?_, ?_, ?_, ?_, ?_⟩ <;> decide

/-- C3 (amended): after every step through the server's acceptance of the
message body has succeeded, the *content* of the QUIT response is ignored —
any line (even an error status) and EOF both still yield a success record
with the attempt's latency — but an exception (timeout or connection fault)
raised while reading the QUIT response is treated as transaction failure and
recorded through the exception path. -/
theorem c3_amended (reads r6 : List NetResult) (ms : ℕ) (t : ℚ) (m : TestMetrics)
    (h : preQuitSteps reads = Except.ok r6) :
    (∀ line rest, r6 = NetResult.ok line :: rest →
      send_smtp_message { connect := none, reads := reads } ms t m =
        (true,
          { m with
            successful_messages := m.successful_messages + 1,
            total_bytes_sent := m.total_bytes_sent + (generate_message_body ms).length,
            response_times := m.response_times ++ [t] })) ∧
    (r6 = [] →
      send_smtp_message { connect := none, reads := reads } ms t m =
        (true,
          { m with
            successful_messages := m.successful_messages + 1,
            total_bytes_sent := m.total_bytes_sent + (generate_message_body ms).length,
            response_times := m.response_times ++ [t] })) ∧
    (∀ e rest, r6 = NetResult.exc e :: rest →
      send_smtp_message { connect := none, reads := reads } ms t m =
        (false, recordException m e)) := by
  refine ⟨?_, ?_, ?_⟩
  · intro line rest hr6
    subst hr6
    simp [send_smtp_message, sessionOutcome, sessionSteps, h, quitRead]
  · intro hr6
    subst hr6
    simp [send_smtp_message, sessionOutcome, sessionSteps, h, quitRead]
  · intro e rest hr6
    subst hr6
    simp [send_smtp_message, sessionOutcome, sessionSteps, h, quitRead]

/-- C3 witness: the amended behaviour at the concrete timing-out QUIT read of
`quitTimeoutSession`. -/
theorem c3_amended_witness :
    preQuitSteps quitTimeoutSession.reads =
      Except.ok [NetResult.exc { isTimeoutError := true, text := "" }] ∧
    send_smtp_message { connect := none, reads := quitTimeoutSession.reads } 0 0 TestMetrics.init =
      (false, recordException TestMetrics.init { isTimeoutError := true, text := "" }) :=
  ⟨rfl,
    (c3_amended quitTimeoutSession.reads
        [NetResult.exc { isTimeoutError := true, text := "" }] 0 0 TestMetrics.init rfl).2.2
      { isTimeoutError := true, text := "" } [] rfl⟩

/-- For a non-empty latency list and `0 ≤ p ≤ 100`, the rank `k` is
non-negative and at most `n - 1`, so Python's `int(k)` is `⌊k⌋` and
`0 ≤ ⌊k⌋ ≤ n - 1`. -/
theorem rank_facts (n : ℕ) (p : ℚ) (hn : 1 ≤ n) (h0 : 0 ≤ p) (h1 : p ≤ 100) :
    0 ≤ ((n : ℚ) - 1) * (p / 100) ∧
    pyInt (((n : ℚ) - 1) * (p / 100)) = ⌊((n : ℚ) - 1) * (p / 100)⌋ ∧
    0 ≤ ⌊((n : ℚ) - 1) * (p / 100)⌋ ∧
    ⌊((n : ℚ) - 1) * (p / 100)⌋ ≤ (n : ℤ) - 1 := by
  have hn1 : (1 : ℚ) ≤ (n : ℚ) := by exact_mod_cast hn
  have hk0 : 0 ≤ ((n : ℚ) - 1) * (p / 100) := by
    apply mul_nonneg (by linarith) (by positivity)
  have hkle : ((n : ℚ) - 1) * (p / 100) ≤ (n : ℚ) - 1 := by
    have hp1 : p / 100 ≤ 1 := by linarith
    nlinarith
  refine ⟨hk0, by simp [pyInt, hk0], Int.floor_nonneg.mpr hk0, ?_⟩
  calc ⌊((n : ℚ) - 1) * (p / 100)⌋ ≤ ⌊(n : ℚ) - 1⌋ := Int.floor_le_floor hkle
    _ = (n : ℤ) - 1 := by
        rw [show ((n : ℚ) - 1) = (((n : ℤ) - 1 : ℤ) : ℚ) by push_cast; ring, Int.floor_intCast]

/-- C4: `percentile(p)` computes exactly the spec's formula (`0` on an empty
list; otherwise interpolation between `sorted[f]` and `sorted[min (f+1) (n-1)]`
at rank `k = (n-1)*p/100`) for every `0 ≤ p ≤ 100`; in particular
`percentile(50)` of `[0.01, 0.02, 0.03, 0.04]` is `0.025`. -/
theorem c4_percentile_spec (times : List ℚ) (p : ℚ) (h0 : 0 ≤ p) (h1 : p ≤ 100) :
    percentileOf times p = percentileSpec times p ∧
    percentileOf [1/100, 2/100, 3/100, 4/100] 50 = 1/40 := by
  constructor
  · unfold percentileOf percentileSpec
    cases hE : times.isEmpty
    · have hne : times ≠ [] := by simpa [List.isEmpty_iff] using hE
      have hn : 1 ≤ (times.mergeSort (fun a b => a ≤ b)).length := by
        rw [(List.mergeSort_perm times _).length_eq]
        exact List.length_pos.mpr hne
      obtain ⟨hk0, hpy, hf0, hfle⟩ := rank_facts _ p hn h0 h1
      simp only [Bool.false_eq_true, if_false, hpy]
      have hc : (if ⌊((((times.mergeSort (fun a b => a ≤ b)).length : ℚ)) - 1) * (p / 100)⌋ + 1 <
            ((times.mergeSort (fun a b => a ≤ b)).length : ℤ) then
            ⌊((((times.mergeSort (fun a b => a ≤ b)).length : ℚ)) - 1) * (p / 100)⌋ + 1
          else ⌊((((times.mergeSort (fun a b => a ≤ b)).length : ℚ)) - 1) * (p / 100)⌋) =
          min (⌊((((times.mergeSort (fun a b => a ≤ b)).length : ℚ)) - 1) * (p / 100)⌋ + 1)
            (((times.mergeSort (fun a b => a ≤ b)).length : ℤ) - 1) := by
        rcases lt_or_ge
            (⌊((((times.mergeSort (fun a b => a ≤ b)).length : ℚ)) - 1) * (p / 100)⌋ + 1)
            (((times.mergeSort (fun a b => a ≤ b)).length : ℤ)) with h | h
        · rw [if_pos h]; omega
        · rw [if_neg (by omega)]; omega
      rw [hc]
    · simp [hE]
  · have hs : List.Sorted (· ≤ ·) [(1 : ℚ)/100, 2/100, 3/100, 4/100] := by
      norm_num [List.sorted_cons]
    unfold percentileOf
    rw [List.mergeSort_eq_self hs]
    norm_num [pyInt, Int.toNat]

/-- C4 witness: the formula and the concrete interpolation example at `p = 50`. -/
theorem c4_percentile_spec_witness :
    (0 : ℚ) ≤ 50 ∧ (50 : ℚ) ≤ 100 ∧
    percentileOf [1/100, 2/100, 3/100, 4/100] 50 = 1/40 :=
  ⟨by norm_num, by norm_num,
    (c4_percentile_spec [1/100, 2/100, 3/100, 4/100] 50 (by norm_num) (by norm_num)).2⟩

/-- `foldl min` (Python's `min` over a list) is below the seed and below every
element. -/
theorem foldl_min_le (xs : List ℚ) :
    ∀ x : ℚ, xs.foldl min x ≤ x ∧ ∀ y ∈ xs, xs.foldl min x ≤ y := by
  induction xs with
  | nil => intro x; simp
  | cons a as ih =>
      intro x
      obtain ⟨h1, h2⟩ := ih (min x a)
      refine ⟨le_trans h1 (min_le_left _ _), ?_⟩
      intro y hy
      rcases List.mem_cons.mp hy with rfl | hy
      · exact le_trans h1 (min_le_right _ _)
      · exact h2 y hy

/-- `foldl max` (Python's `max` over a list) is above the seed and above every
element. -/
theorem le_foldl_max (xs : List ℚ) :
    ∀ x : ℚ, x ≤ xs.foldl max x ∧ ∀ y ∈ xs, y ≤ xs.foldl max x := by
  induction xs with
  | nil => intro x; simp
  | cons a as ih =>
      intro x
      obtain ⟨h1, h2⟩ := ih (max x a)
      refine ⟨le_trans (le_max_left _ _) h1, ?_⟩
      intro y hy
      rcases List.mem_cons.mp hy with rfl | hy
      · exact le_trans (le_max_right _ _) h1
      · exact h2 y hy

/-- An in-bounds `getD` is a member of the list. -/
theorem getD_mem {s : List ℚ} {i : ℕ} (h : i < s.length) : s.getD i 0 ∈ s := by
  rw [List.getD_eq_getElem s 0 h]
  exact List.getElem_mem h

/-- On a `≤`-sorted list, `getD` is monotone in the index. -/
theorem sorted_getD_mono {s : List ℚ} (hs : List.Sorted (· ≤ ·) s) {i j : ℕ}
    (hij : i ≤ j) (hj : j < s.length) : s.getD i 0 ≤ s.getD j 0 := by
  rw [List.getD_eq_getElem s 0 (lt_of_le_of_lt hij hj), List.getD_eq_getElem s 0 hj]
  have h := hs.rel_get_of_le (a := ⟨i, lt_of_le_of_lt hij hj⟩) (b := ⟨j, hj⟩)
    (by exact hij)
  simpa [List.get_eq_getElem] using h

/-- When `⌊k⌋` is non-negative, its `toNat` brackets `k` as the usual floor. -/
theorem toNat_floor_facts (k : ℚ) (hk0 : 0 ≤ ⌊k⌋) :
    ((⌊k⌋.toNat : ℕ) : ℚ) ≤ k ∧ k < ((⌊k⌋.toNat : ℕ) : ℚ) + 1 := by
  have hc : ((⌊k⌋.toNat : ℕ) : ℚ) = ((⌊k⌋ : ℤ) : ℚ) := by
    exact_mod_cast Int.toNat_of_nonneg hk0
  rw [hc]
  exact ⟨Int.floor_le k, Int.lt_floor_add_one k⟩

/-- Closed form of `percentile(p)` for a non-empty list and `0 ≤ p ≤ 100`:
writing `s` for the sorted copy, `k` for the rank and `f = ⌊k⌋` (as a natural
number), the value interpolates between `s[f]` and `s[f+1]` when `f + 1 < n`
and is `s[f]` otherwise. -/
theorem percentileOf_eq (l : List ℚ) (p : ℚ) (s : List ℚ) (k : ℚ) (f : ℕ)
    (hne : l ≠ []) (h0 : 0 ≤ p) (h1 : p ≤ 100)
    (hs : s = l.mergeSort (fun a b => a ≤ b))
    (hk : k = ((s.length : ℚ) - 1) * (p / 100))
    (hf : f = (⌊k⌋).toNat) :
    percentileOf l p =
      if f + 1 < s.length then
        s.getD f 0 * (((f : ℚ) + 1) - k) + s.getD (f + 1) 0 * (k - (f : ℚ))
      else s.getD f 0 := by
  subst hs hk hf
  have hE : l.isEmpty = false := by simpa [List.isEmpty_iff] using hne
  have hn : 1 ≤ (l.mergeSort (fun a b => a ≤ b)).length := by
    rw [(List.mergeSort_perm l _).length_eq]
    exact List.length_pos.mpr hne
  obtain ⟨hk0, hpy, hf0, hfle⟩ := rank_facts _ p hn h0 h1
  unfold percentileOf
  simp only [hE, Bool.false_eq_true, if_false, hpy]
  set s := l.mergeSort (fun a b => a ≤ b) with hsdef
  set k : ℚ := ((s.length : ℚ) - 1) * (p / 100) with hkdef
  have htn : ((⌊k⌋.toNat : ℕ) : ℚ) = ((⌊k⌋ : ℤ) : ℚ) := by
    exact_mod_cast Int.toNat_of_nonneg hf0
  rcases lt_or_ge (⌊k⌋ + 1) (s.length : ℤ) with h | h
  · have hcond : ¬ (⌊k⌋ = if ⌊k⌋ + 1 < (s.length : ℤ) then ⌊k⌋ + 1 else ⌊k⌋) := by
      rw [if_pos h]
      omega
    rw [if_neg hcond, if_pos h, if_pos (show ⌊k⌋.toNat + 1 < s.length by omega)]
    have ht1 : (⌊k⌋ + 1).toNat = ⌊k⌋.toNat + 1 := by omega
    have ht2 : ((⌊k⌋ + 1 : ℤ) : ℚ) = ((⌊k⌋.toNat : ℕ) : ℚ) + 1 := by
      rw [htn]
      push_cast
      ring
    rw [ht1, ht2, ← htn]
  · have hcond : (⌊k⌋ = if ⌊k⌋ + 1 < (s.length : ℤ) then ⌊k⌋ + 1 else ⌊k⌋) := by
      rw [if_neg (by omega)]
    rw [if_pos hcond, if_neg (show ¬ (⌊k⌋.toNat + 1 < s.length) by omega)]

/-- Value bounds for one percentile: `s[f] ≤ percentile(p) ≤ s[min (f+1) (n-1)]`,
hence the value is trapped between two members of the sorted copy. -/
theorem percentileOf_between (l : List ℚ) (p : ℚ)
    (hne : l ≠ []) (h0 : 0 ≤ p) (h1 : p ≤ 100) :
    (l.mergeSort (fun a b => a ≤ b)).getD (⌊(((l.mergeSort (fun a b => a ≤ b)).length : ℚ) - 1) * (p / 100)⌋).toNat 0 ≤
      percentileOf l p ∧
    ∃ j : ℕ, j < (l.mergeSort (fun a b => a ≤ b)).length ∧
      (⌊(((l.mergeSort (fun a b => a ≤ b)).length : ℚ) - 1) * (p / 100)⌋).toNat ≤ j ∧
      percentileOf l p ≤ (l.mergeSort (fun a b => a ≤ b)).getD j 0 := by
  have hn : 1 ≤ (l.mergeSort (fun a b => a ≤ b)).length := by
    rw [(List.mergeSort_perm l _).length_eq]
    exact List.length_pos.mpr hne
  obtain ⟨hk0, hpy, hf0, hfle⟩ := rank_facts _ p hn h0 h1
  have hsorted : List.Sorted (· ≤ ·) (l.mergeSort (fun a b => a ≤ b)) :=
    List.sorted_mergeSort' l
  have heq := percentileOf_eq l p _ _ _ hne h0 h1 rfl rfl rfl
  set s := l.mergeSort (fun a b => a ≤ b) with hsdef
  set k : ℚ := ((s.length : ℚ) - 1) * (p / 100) with hkdef
  set f : ℕ := (⌊k⌋).toNat with hfdef
  have hfk : (f : ℚ) ≤ k := by
    rw [hfdef]
    exact (toNat_floor_facts k hf0).1
  have hkf1 : k < (f : ℚ) + 1 := by
    rw [hfdef]
    exact (toNat_floor_facts k hf0).2
  have hfn : f < s.length := by omega
  rcases lt_or_ge (f + 1) s.length with hc | hc
  · rw [heq, if_pos hc]
    have hab : s.getD f 0 ≤ s.getD (f + 1) 0 :=
      sorted_getD_mono hsorted (Nat.le_succ f) hc
    constructor
    · nlinarith [hab, hfk, hkf1]
    · exact ⟨f + 1, hc, Nat.le_succ f, by nlinarith [hab, hfk, hkf1]⟩
  · rw [heq, if_neg (by omega)]
    exact ⟨le_refl _, f, hfn, le_refl f, le_refl _⟩

set_option maxHeartbeats 1000000 in
/-- C10: for a fixed non-empty latency list, `percentile` is monotone in `p`
on `0 ≤ p ≤ q ≤ 100`, and its value lies between the minimum and the maximum
recorded latency inclusive. -/
theorem c10_percentile_monotone_bounded (m : TestMetrics) (p q : ℚ)
    (hne : m.response_times ≠ []) (hp0 : 0 ≤ p) (hpq : p ≤ q) (hq1 : q ≤ 100) :
    m.percentile p ≤ m.percentile q ∧
    m.min_response_time ≤ m.percentile p ∧
    m.percentile p ≤ m.max_response_time := by
  obtain ⟨x, xs, hl⟩ : ∃ x xs, m.response_times = x :: xs := by
    cases hxs : m.response_times with
    | nil => exact absurd hxs hne
    | cons x xs => exact ⟨x, xs, rfl⟩
  have hq0 : 0 ≤ q := le_trans hp0 hpq
  have hp1 : p ≤ 100 := le_trans hpq hq1
  set l := m.response_times with hldef
  have hlne : l ≠ [] := hne
  have hn : 1 ≤ (l.mergeSort (fun a b => a ≤ b)).length := by
    rw [(List.mergeSort_perm l _).length_eq]
    exact List.length_pos.mpr hlne
  have hsorted : List.Sorted (· ≤ ·) (l.mergeSort (fun a b => a ≤ b)) :=
    List.sorted_mergeSort' l
  have hperm : (l.mergeSort (fun a b => a ≤ b)).Perm l := List.mergeSort_perm l _
  set s := l.mergeSort (fun a b => a ≤ b) with hsdef
  -- the min/max accessors bound every member of the list
  have hl' : m.response_times = x :: xs := hl
  have hminval : m.min_response_time = xs.foldl min x := by
    unfold TestMetrics.min_response_time
    rw [hl']
  have hmaxval : m.max_response_time = xs.foldl max x := by
    unfold TestMetrics.max_response_time
    rw [hl']
  have hmin : ∀ y ∈ l, m.min_response_time ≤ y := by
    intro y hy
    rw [hminval]
    rw [hl] at hy
    rcases List.mem_cons.mp hy with rfl | hy'
    · exact (foldl_min_le xs y).1
    · exact (foldl_min_le xs x).2 y hy'
  have hmax : ∀ y ∈ l, y ≤ m.max_response_time := by
    intro y hy
    rw [hmaxval]
    rw [hl] at hy
    rcases List.mem_cons.mp hy with rfl | hy'
    · exact (le_foldl_max xs y).1
    · exact (le_foldl_max xs x).2 y hy'
  -- bounds for p
  obtain ⟨hlow, j, hjlt, hjge, hup⟩ := percentileOf_between l p hlne hp0 hp1
  obtain ⟨hk0p, hpyp, hf0p, hflep⟩ := rank_facts _ p hn hp0 hp1
  obtain ⟨hk0q, hpyq, hf0q, hfleq⟩ := rank_facts _ q hn hq0 hq1
  have hfnp : (⌊((s.length : ℚ) - 1) * (p / 100)⌋).toNat < s.length := by omega
  have hbounds : m.min_response_time ≤ m.percentile p ∧ m.percentile p ≤ m.max_response_time := by
    constructor
    · exact le_trans (hmin _ (hperm.mem_iff.mp (getD_mem hfnp))) hlow
    · exact le_trans hup (hmax _ (hperm.mem_iff.mp (getD_mem hjlt)))
  refine ⟨?_, hbounds.1, hbounds.2⟩
  -- monotonicity in p
  show percentileOf l p ≤ percentileOf l q
  have heqp := percentileOf_eq l p _ _ _ hlne hp0 hp1 rfl rfl rfl
  have heqq := percentileOf_eq l q _ _ _ hlne hq0 hq1 rfl rfl rfl
  set kp : ℚ := ((s.length : ℚ) - 1) * (p / 100) with hkpdef
  set kq : ℚ := ((s.length : ℚ) - 1) * (q / 100) with hkqdef
  set fp : ℕ := (⌊kp⌋).toNat with hfpdef
  set fq : ℕ := (⌊kq⌋).toNat with hfqdef
  have hnn : 0 ≤ (s.length : ℚ) - 1 := by
    have h1n : (1 : ℚ) ≤ (s.length : ℚ) := by exact_mod_cast hn
    linarith
  have hkpq : kp ≤ kq := by
    rw [hkpdef, hkqdef]
    exact mul_le_mul_of_nonneg_left (by linarith) hnn
  have hfple : ⌊kp⌋ ≤ ⌊kq⌋ := Int.floor_le_floor hkpq
  have hfpq : fp ≤ fq := by rw [hfpdef, hfqdef]; omega
  clear_value fp fq
  obtain ⟨hfkp, hkfp1⟩ := toNat_floor_facts kp hf0p
  obtain ⟨hfkq, hkfq1⟩ := toNat_floor_facts kq hf0q
  rw [← hfpdef] at hfkp hkfp1
  rw [← hfqdef] at hfkq hkfq1
  rw [← hsdef] at heqp heqq
  clear_value kp kq s l
  rcases Nat.eq_or_lt_of_le hfpq with hsame | hlt
  · -- same floor index: both values interpolate over the same pair
    rw [heqp, heqq, ← hsame]
    rcases lt_or_ge (fp + 1) s.length with hcl | hcl
    · rw [if_pos hcl, if_pos hcl]
      have hab : s.getD fp 0 ≤ s.getD (fp + 1) 0 :=
        sorted_getD_mono hsorted (Nat.le_succ fp) hcl
      rw [← hsame] at hfkq hkfq1
      nlinarith [hkpq, hab]
    · rw [if_neg (by omega), if_neg (by omega)]
  · -- the floor index strictly grows: chain through the sorted copy
    have hfqn : fq < s.length := by omega
    have hcl : fp + 1 < s.length := by omega
    rw [heqp, heqq, if_pos hcl]
    have hab : s.getD fp 0 ≤ s.getD (fp + 1) 0 :=
      sorted_getD_mono hsorted (Nat.le_succ fp) hcl
    have hup_p : s.getD fp 0 * (((fp : ℚ) + 1) - kp) + s.getD (fp + 1) 0 * (kp - (fp : ℚ)) ≤
        s.getD (fp + 1) 0 := by
      nlinarith [hfkp, hkfp1, hab]
    have hmid : s.getD (fp + 1) 0 ≤ s.getD fq 0 :=
      sorted_getD_mono hsorted (by omega) hfqn
    rcases lt_or_ge (fq + 1) s.length with hcq | hcq
    · rw [if_pos hcq]
      have hab' : s.getD fq 0 ≤ s.getD (fq + 1) 0 :=
        sorted_getD_mono hsorted (Nat.le_succ fq) hcq
      have hlow_q : s.getD fq 0 ≤
          s.getD fq 0 * (((fq : ℚ) + 1) - kq) + s.getD (fq + 1) 0 * (kq - (fq : ℚ)) := by
        nlinarith [hfkq, hkfq1, hab']
      linarith [hup_p, hmid, hlow_q]
    · rw [if_neg (by omega)]
      linarith [hup_p, hmid]

/-- C10 witness: monotonicity at `p = 25 ≤ q = 75` on the two-element latency
list `[0.01, 0.03]`. -/
theorem c10_percentile_monotone_bounded_witness :
    ({ response_times := [1/100, 3/100] } : TestMetrics).response_times ≠ [] ∧
    (0 : ℚ) ≤ 25 ∧ (25 : ℚ) ≤ 75 ∧ (75 : ℚ) ≤ 100 ∧
    ({ response_times := [1/100, 3/100] } : TestMetrics).percentile 25 ≤
      ({ response_times := [1/100, 3/100] } : TestMetrics).percentile 75 :=
  ⟨by simp, by norm_num, by norm_num, by norm_num,
    (c10_percentile_monotone_bounded { response_times := [1/100, 3/100] } 25 75
      (by simp) (by norm_num) (by norm_num) (by norm_num)).1⟩

/-! ### Length analysis of `generate_message_body` -/

set_option maxRecDepth 4000 in
/-- The fixed header is 208 bytes long. -/
theorem headerMessage_length : headerMessage.length = 208 := by decide

/-- A filler line is 37 bytes plus the decimal width of its line number. -/
theorem fillerLine_length (n : ℕ) :
    (fillerLine n).length = 37 + (Nat.repr n).length := by
  have h1 : ("Line " : String).length = 5 := by decide
  have h2 : (" of test message body content.\r\n" : String).length = 32 := by decide
  simp only [fillerLine, String.length_append, h1, h2]
  omega

/-- `digitsLen` is at least one. -/
theorem digitsLen_pos (n : ℕ) : 1 ≤ digitsLen n := by
  rw [digitsLen]
  split <;> omega

/-- With enough fuel, `Nat.toDigitsCore` produces exactly `digitsLen n` digits
in front of the accumulator. -/
theorem toDigitsCore_length_eq (fuel : ℕ) :
    ∀ (n : ℕ) (acc : List Char), n < fuel →
      (Nat.toDigitsCore 10 fuel n acc).length = digitsLen n + acc.length := by
  induction fuel with
  | zero => intro n acc h; exact absurd h (Nat.not_lt_zero n)
  | succ fuel ih =>
      intro n acc h
      rw [Nat.toDigitsCore]
      by_cases h10 : n / 10 = 0
      · have hn10 : n < 10 := by omega
        rw [if_pos h10, digitsLen, if_pos hn10]
        simp only [List.length_cons]
        omega
      · have hn10 : ¬ n < 10 := by omega
        have hrec : n / 10 < fuel := by omega
        have hd : digitsLen n = digitsLen (n / 10) + 1 := by
          rw [digitsLen, if_neg hn10]
        rw [if_neg h10, ih (n / 10) _ hrec, hd]
        simp only [List.length_cons]
        omega

/-- The length of Python's `str(n)` is `digitsLen n`. -/
theorem repr_length_eq_digitsLen (n : ℕ) : (Nat.repr n).length = digitsLen n := by
  cases n with
  | zero =>
      have h0 : digitsLen 0 = 1 := by rw [digitsLen]; norm_num
      rw [h0]
      decide
  | succ m =>
      show (Nat.toDigitsCore 10 (m + 2) (m + 1) []).length = digitsLen (m + 1)
      rw [toDigitsCore_length_eq (m + 2) (m + 1) [] (by omega)]
      simp

/-- Numbers in `[10^k, 10^(k+1))` are exactly `k + 1` digits wide. -/
theorem digitsLen_pow (k : ℕ) :
    ∀ n : ℕ, 10 ^ k ≤ n → n < 10 ^ (k + 1) → digitsLen n = k + 1 := by
  induction k with
  | zero =>
      intro n h1 h2
      rw [digitsLen, if_pos (by simpa using h2)]
  | succ k ih =>
      intro n h1 h2
      have h10 : ¬ n < 10 := by
        have : (10 : ℕ) ≤ 10 ^ (k + 1) := by
          calc (10 : ℕ) = 10 ^ 1 := by norm_num
            _ ≤ 10 ^ (k + 1) := Nat.pow_le_pow_right (by norm_num) (by omega)
        omega
      rw [digitsLen, if_neg h10]
      have hlow : 10 ^ k ≤ n / 10 := by
        rw [Nat.le_div_iff_mul_le (by norm_num)]
        calc 10 ^ k * 10 = 10 ^ (k + 1) := by ring
          _ ≤ n := h1
      have hhigh : n / 10 < 10 ^ (k + 1) := by
        rw [Nat.div_lt_iff_lt_mul (by norm_num)]
        calc n < 10 ^ (k + 2) := h2
          _ = 10 ^ (k + 1) * 10 := by ring
      rw [ih (n / 10) hlow hhigh]

/-- Width upper bound: `n < 10^k` (with `k ≥ 1`) is at most `k` digits wide. -/
theorem digitsLen_le (k n : ℕ) (hk : 1 ≤ k) (h : n < 10 ^ k) : digitsLen n ≤ k := by
  rw [← repr_length_eq_digitsLen]
  exact Nat.repr_length n k hk h

/-- Length of the message after `m` filler lines. -/
theorem msgUpTo_length (m : ℕ) :
    (msgUpTo m).length = 208 + 37 * m + digitSum m := by
  induction m with
  | zero => exact headerMessage_length
  | succ m ih =>
      show (msgUpTo m ++ fillerLine (m + 1)).length = _
      rw [String.length_append, ih, fillerLine_length, repr_length_eq_digitsLen]
      show _ = 208 + 37 * (m + 1) + (digitSum m + digitsLen (m + 1))
      ring

/-- `digitSum` is monotone. -/
theorem digitSum_mono {a b : ℕ} (h : a ≤ b) : digitSum a ≤ digitSum b := by
  induction b with
  | zero =>
      have ha : a = 0 := by omega
      subst ha
      exact le_refl _
  | succ b ih =>
      rcases Nat.lt_or_ge a (b + 1) with h' | h'
      · have h1 := ih (by omega)
        have h2 : digitSum (b + 1) = digitSum b + digitsLen (b + 1) := rfl
        omega
      · have ha : a = b + 1 := by omega
        subst ha
        exact le_refl _

/-- The padded message's length is monotone in the number of filler lines. -/
theorem msgUpTo_length_mono {a b : ℕ} (h : a ≤ b) :
    (msgUpTo a).length ≤ (msgUpTo b).length := by
  rw [msgUpTo_length, msgUpTo_length]
  have hds := digitSum_mono h
  omega

/-- One filler line appended: 37 bytes plus the line number's width. -/
theorem msgUpTo_length_succ (m : ℕ) :
    (msgUpTo (m + 1)).length = (msgUpTo m).length + 37 + digitsLen (m + 1) := by
  show (msgUpTo m ++ fillerLine (m + 1)).length = _
  rw [String.length_append, fillerLine_length, repr_length_eq_digitsLen]
  ring

/-- Summing digit widths over a block where every number is `c` digits wide. -/
theorem digitSum_block (c : ℕ) :
    ∀ (d a : ℕ), (∀ j, a < j → j ≤ a + d → digitsLen j = c) →
      digitSum (a + d) = digitSum a + d * c := by
  intro d
  induction d with
  | zero => intro a _; simp
  | succ d ih =>
      intro a h
      have h1 : digitSum (a + (d + 1)) = digitSum (a + d) + digitsLen (a + d + 1) := rfl
      rw [h1, ih a (fun j hj1 hj2 => h j hj1 (by omega)), h (a + d + 1) (by omega) (by omega)]
      ring

/-- Closed form: the digits of `1, ..., 10^k - 1` total `decadeDigitTotal k`. -/
theorem digitSum_pow_sub_one (k : ℕ) :
    digitSum (10 ^ k - 1) = decadeDigitTotal k := by
  induction k with
  | zero => rfl
  | succ k ih =>
      have hp : (1 : ℕ) ≤ 10 ^ k := Nat.one_le_pow _ _ (by norm_num)
      have hp2 : 10 ^ k ≤ 10 ^ (k + 1) := Nat.pow_le_pow_right (by norm_num) (by omega)
      have hp2' : 10 ^ k < 10 ^ (k + 1) :=
        Nat.pow_lt_pow_right (by norm_num) (by omega)
      have hd : 10 ^ (k + 1) - 1 = (10 ^ k - 1) + (10 ^ (k + 1) - 10 ^ k) := by omega
      have hblock : ∀ j, 10 ^ k - 1 < j → j ≤ (10 ^ k - 1) + (10 ^ (k + 1) - 10 ^ k) →
          digitsLen j = k + 1 := by
        intro j hj1 hj2
        exact digitsLen_pow k j (by omega) (by omega)
      rw [hd, digitSum_block (k + 1) (10 ^ (k + 1) - 10 ^ k) (10 ^ k - 1) hblock, ih]
      rfl

/-- Running the padding loop from the state after `a` filler lines walks to the
state after `a + d` lines, provided the threshold is crossed exactly there. -/
theorem padLoop_msgUpTo (S : ℕ) :
    ∀ (d a : ℕ), S - 100 ≤ (msgUpTo (a + d)).length →
      (∀ j, a ≤ j → j < a + d → (msgUpTo j).length < S - 100) →
      padLoop S a (msgUpTo a) = msgUpTo (a + d) := by
  intro d
  induction d with
  | zero =>
      intro a hge _
      rw [padLoop, dif_neg (by simp only [Nat.add_zero] at hge; omega)]
      rfl
  | succ d ih =>
      intro a hge hlt
      have hstep : (msgUpTo a).length < S - 100 := hlt a (le_refl a) (by omega)
      rw [padLoop, dif_pos hstep]
      have hmsg : msgUpTo a ++ fillerLine (a + 1) = msgUpTo (a + 1) := rfl
      rw [hmsg]
      have hg : S - 100 ≤ (msgUpTo (a + 1 + d)).length := by
        rw [show a + 1 + d = a + (d + 1) by omega]
        exact hge
      have hl : ∀ j, a + 1 ≤ j → j < a + 1 + d → (msgUpTo j).length < S - 100 := by
        intro j hj1 hj2
        exact hlt j (by omega) (by omega)
      rw [ih (a + 1) hg hl, show a + 1 + d = a + (d + 1) by omega]

/-- The padding loop always stops at or above the `size_bytes - 100`
threshold. -/
theorem padLoop_length_ge (S : ℕ) :
    ∀ (fuel n : ℕ) (msg : String), S - msg.length ≤ fuel →
      S - 100 ≤ (padLoop S n msg).length := by
  intro fuel
  induction fuel with
  | zero =>
      intro n msg hf
      rw [padLoop, dif_neg (by omega)]
      omega
  | succ fuel ih =>
      intro n msg hf
      rw [padLoop]
      by_cases hc : msg.length < S - 100
      · rw [dif_pos hc]
        apply ih
        have hgrow : msg.length + 38 ≤ (msg ++ fillerLine (n + 1)).length := by
          have hd := digitsLen_pos (n + 1)
          rw [String.length_append, fillerLine_length, repr_length_eq_digitsLen]
          omega
        omega
      · rw [dif_neg hc]
        omega

/-- The padding loop never shrinks the message. -/
theorem padLoop_length_ge_msg (S : ℕ) :
    ∀ (fuel n : ℕ) (msg : String), S - msg.length ≤ fuel →
      msg.length ≤ (padLoop S n msg).length := by
  intro fuel
  induction fuel with
  | zero =>
      intro n msg hf
      rw [padLoop, dif_neg (by omega)]
  | succ fuel ih =>
      intro n msg hf
      rw [padLoop]
      by_cases hc : msg.length < S - 100
      · rw [dif_pos hc]
        have hgrow : msg.length + 38 ≤ (msg ++ fillerLine (n + 1)).length := by
          have hd := digitsLen_pos (n + 1)
          rw [String.length_append, fillerLine_length, repr_length_eq_digitsLen]
          omega
        have := ih (n + 1) (msg ++ fillerLine (n + 1)) (by omega)
        omega
      · rw [dif_neg hc]

/-- The final padded length is monotone in the requested size. -/
theorem padLoop_mono (S1 S2 : ℕ) (h12 : S1 ≤ S2) :
    ∀ (fuel n : ℕ) (msg : String), S2 - msg.length ≤ fuel →
      (padLoop S1 n msg).length ≤ (padLoop S2 n msg).length := by
  intro fuel
  induction fuel with
  | zero =>
      intro n msg hf
      have hc1 : ¬ (msg.length < S1 - 100) := by omega
      have hc2 : ¬ (msg.length < S2 - 100) := by omega
      rw [padLoop, dif_neg hc1, padLoop, dif_neg hc2]
  | succ fuel ih =>
      intro n msg hf
      by_cases hc1 : msg.length < S1 - 100
      · have hc2 : msg.length < S2 - 100 := by omega
        have hgrow : msg.length + 38 ≤ (msg ++ fillerLine (n + 1)).length := by
          have hd := digitsLen_pos (n + 1)
          rw [String.length_append, fillerLine_length, repr_length_eq_digitsLen]
          omega
        conv_lhs => rw [padLoop, dif_pos hc1]
        conv_rhs => rw [padLoop, dif_pos hc2]
        exact ih (n + 1) (msg ++ fillerLine (n + 1)) (by omega)
      · conv_lhs => rw [padLoop, dif_neg hc1]
        exact padLoop_length_ge_msg S2 (fuel + 1) n msg hf

/-- For sizes up to `10^18` the filler line numbers stay below 17 digits, so
the loop never overshoots the requested size (invariant:
`208 + 38 * line_num ≤ len(message) ≤ size_bytes`). -/
theorem padLoop_le (S : ℕ) (h3 : 300 ≤ S) (h18 : S ≤ 10 ^ 18) :
    ∀ (fuel n : ℕ) (msg : String), S - msg.length ≤ fuel →
      208 + 38 * n ≤ msg.length → msg.length ≤ S →
      (padLoop S n msg).length ≤ S := by
  have hpow : (10 : ℕ) ^ 18 = 1000000000000000000 := by norm_num
  intro fuel
  induction fuel with
  | zero =>
      intro n msg hf hinv hle
      rw [padLoop, dif_neg (by omega)]
      exact hle
  | succ fuel ih =>
      intro n msg hf hinv hle
      rw [padLoop]
      by_cases hc : msg.length < S - 100
      · rw [dif_pos hc]
        have hd1 := digitsLen_pos (n + 1)
        have hn18 : n + 1 < 10 ^ 18 := by omega
        have hdle : digitsLen (n + 1) ≤ 18 := digitsLen_le 18 (n + 1) (by norm_num) hn18
        have hstep : (msg ++ fillerLine (n + 1)).length =
            msg.length + 37 + digitsLen (n + 1) := by
          rw [String.length_append, fillerLine_length, repr_length_eq_digitsLen]
          ring
        exact ih (n + 1) (msg ++ fillerLine (n + 1)) (by omega) (by omega) (by omega)
      · rw [dif_neg hc]
        exact hle

/-- C7 counterexample: at the astronomically large (but perfectly explicit)
size `S = 1008888888888888888888888888888888888888888888888888888888888889161`
the generated body is one byte *longer* than `sizeBytes`: the last filler line
has number `10^64` (65 digits, 102 bytes), crossing the threshold from
`S - 101` to `S + 1 > S`, so the claimed interval
`[sizeBytes - margin - lineLength, sizeBytes]` is violated at its upper end. -/
theorem c7_counterexample :
    300 ≤ 1008888888888888888888888888888888888888888888888888888888888889161 ∧
    (generate_message_body
        1008888888888888888888888888888888888888888888888888888888888889161).length =
      1008888888888888888888888888888888888888888888888888888888888889161 + 1 := by
  refine ⟨by norm_num, ?_⟩
  have hN1 : (1 : ℕ) ≤ 10 ^ 64 := Nat.one_le_pow _ _ (by norm_num)
  have hlen1 : (msgUpTo (10 ^ 64 - 1)).length =
      208 + 37 * (10 ^ 64 - 1) + decadeDigitTotal 64 := by
    rw [msgUpTo_length, digitSum_pow_sub_one]
  have hnum : 208 + 37 * (10 ^ 64 - 1) + decadeDigitTotal 64 =
      1008888888888888888888888888888888888888888888888888888888888889060 := by
    decide
  have hdig : digitsLen (10 ^ 64) = 65 := by
    have h64 : (10 : ℕ) ^ 64 < 10 ^ 65 := Nat.pow_lt_pow_right (by norm_num) (by omega)
    exact digitsLen_pow 64 (10 ^ 64) (le_refl _) h64
  have hlen2 : (msgUpTo (10 ^ 64)).length =
      1008888888888888888888888888888888888888888888888888888888888889162 := by
    have hsucc : 10 ^ 64 = (10 ^ 64 - 1) + 1 := by omega
    rw [hsucc, msgUpTo_length_succ, ← hsucc, hdig, hlen1, hnum]
  have hwalk := padLoop_msgUpTo
    1008888888888888888888888888888888888888888888888888888888888889161
    (10 ^ 64) 0 ?_ ?_
  · show (padLoop 1008888888888888888888888888888888888888888888888888888888888889161
        0 headerMessage).length = _
    have hm0 : headerMessage = msgUpTo 0 := rfl
    rw [hm0, hwalk]
    simpa using hlen2
  · simp only [Nat.zero_add]
    rw [hlen2]
    decide
  · intro j _ hj
    simp only [Nat.zero_add] at hj
    have hmono : (msgUpTo j).length ≤ (msgUpTo (10 ^ 64 - 1)).length :=
      msgUpTo_length_mono (by omega)
    rw [hlen1, hnum] at hmono
    omega

/-- C7 (amended): `generate_message_body` is a pure function of `sizeBytes`
(determinism is definitional); its output length is monotone in `sizeBytes`;
its length is always at least `sizeBytes - 100` (hence within the claimed
lower margin); and for every `300 ≤ sizeBytes ≤ 10^18` — i.e. every size
whose filler line numbers stay at most 18 digits wide — the length never
exceeds `sizeBytes`.  (For astronomically larger sizes the upper bound fails,
see the counterexample.) -/
theorem c7_amended (sb s1 s2 : ℕ) (h3 : 300 ≤ sb) (h18 : sb ≤ 10 ^ 18)
    (h12 : s1 ≤ s2) :
    sb - 100 ≤ (generate_message_body sb).length ∧
    (generate_message_body sb).length ≤ sb ∧
    (generate_message_body s1).length ≤ (generate_message_body s2).length := by
  refine ⟨?_, ?_, ?_⟩
  · exact padLoop_length_ge sb sb 0 headerMessage (by omega)
  · refine padLoop_le sb h3 h18 sb 0 headerMessage (by omega) ?_ ?_
    · rw [headerMessage_length]
    · rw [headerMessage_length]
      omega
  · exact padLoop_mono s1 s2 h12 s2 0 headerMessage (by omega)

/-- C7 witness: the amended bounds at `sizeBytes = 300` (and monotonicity
`300 ≤ 400`). -/
theorem c7_amended_witness :
    (300 : ℕ) ≤ 300 ∧ (300 : ℕ) ≤ 10 ^ 18 ∧ (300 : ℕ) ≤ 400 ∧
    (generate_message_body 300).length ≤ 300 :=
  ⟨by decide, by norm_num, by decide,
    (c7_amended 300 300 400 (by decide) (by norm_num) (by decide)).2.1⟩

end LoadGenerator
